import Mathlib

/-!
Verification development for the in-memory multi-type key-value store
(`StorageEngine` / `ThreadSafeStore`).  The storage engine is embedded
shallowly: the C++ `unordered_map<string, RedisValue>` becomes an
association list with unique keys, `std::chrono` time points become `Nat`
ticks (one tick = one millisecond of the model clock, so one second
= 1000 ticks), and every engine operation is a pure function that returns
its result together with the successor store (the engine mutates the map
in place; here the mutation is made explicit).
-/

/-- The four value tags of `ValueType` in ValueTypes.h. -/
inductive ValueType where
  | STRING
  | LIST
  | SET
  | HASH
deriving DecidableEq, Repr

/-- `RedisData`: the tagged union `variant<RedisString, RedisList, RedisSet,
RedisHash>`.  The unordered set becomes a `Finset String`; the unordered
field map becomes an association list with unique field names. -/
inductive RedisData where
  | str (s : String)
  | list (l : List String)
  | set (s : Finset String)
  | hash (h : List (String × String))
deriving DecidableEq

/-- `RedisValue`: stored data plus optional absolute expiry time point
(model-clock ticks, 1000 ticks per second). -/
structure RedisValue where
  data : RedisData
  expiry : Option Nat
deriving DecidableEq

/-- `RedisValue::getType` (dispatch of `std::visit` over the variant). -/
def tagOf : RedisData → ValueType
  | .str _ => .STRING
  | .list _ => .LIST
  | .set _ => .SET
  | .hash _ => .HASH

/-- `RedisValue::isExpired`: true iff an expiry is set and `now` is past it
(the C++ comparison is strict: `now > expiry.value()`). -/
def valExpired (v : RedisValue) (now : Nat) : Bool :=
  match v.expiry with
  | none => false
  | some d => decide (d < now)

/-- Expiry computed by the `RedisValue(data, ttl_seconds)` constructor:
a deadline `now + ttl` seconds only when `ttl > 0`. -/
def ttlExpiry (now : Nat) (ttl : Int) : Option Nat :=
  if ttl > 0 then some (now + ttl.toNat * 1000) else none

/-- The store: `unordered_map<string, RedisValue>` as an association list
with unique keys (iteration order of the C++ map is unspecified, so the
list order carries no meaning). -/
abbrev Store := List (String × RedisValue)

/-- `store_.erase(key)`. -/
def eraseKey (st : Store) (k : String) : Store :=
  st.filter (fun p => p.1 != k)

/-- `store_[key] = v` (insert-or-assign).  Assignment into the unordered
map is modelled as erase-then-append; the position of an entry in the
association list is not observable. -/
def setEntry (st : Store) (k : String) (v : RedisValue) : Store :=
  eraseKey st k ++ [(k, v)]

namespace SE

/-- `StorageEngine::isExpired`: absent key ⇒ `false`; expired entry ⇒
physically erased and `true`; otherwise `false`.  Returns the flag together
with the (possibly mutated) store. -/
def isExpired (st : Store) (k : String) (now : Nat) : Bool × Store :=
  match st.lookup k with
  | none => (false, st)
  | some v => if valExpired v now then (true, eraseKey st k) else (false, st)

end SE

-- ### Association-list lemmas

theorem lookup_eraseKey_self (st : Store) (k : String) :
    (eraseKey st k).lookup k = none := by
  induction st with
  | nil => rfl
  | cons p tl ih =>
    by_cases h : p.1 = k
    · simpa [eraseKey, List.filter_cons, h] using ih
    · simp only [eraseKey, List.filter_cons] at ih ⊢
      rw [if_pos (by simpa using h)]
      simpa [List.lookup, show (k == p.1) = false by simpa using (Ne.symm h)] using ih

theorem lookup_append_right (st : Store) (k : String) (v : RedisValue)
    (h : st.lookup k = none) : (st ++ [(k, v)]).lookup k = some v := by
  induction st with
  | nil => simp [List.lookup]
  | cons p tl ih =>
    simp only [List.lookup] at h ⊢
    cases hk : (k == p.1) with
    | true => rw [hk] at h; exact absurd h (by simp)
    | false => rw [hk] at h; exact ih h

theorem lookup_setEntry_self (st : Store) (k : String) (v : RedisValue) :
    (setEntry st k v).lookup k = some v := by
  unfold setEntry
  exact lookup_append_right _ _ _ (lookup_eraseKey_self st k)

theorem any_of_lookup_some {st : Store} {k : String} {v : RedisValue}
    (h : st.lookup k = some v) : st.any (fun p => p.1 == k) = true := by
  induction st with
  | nil => simp [List.lookup] at h
  | cons p tl ih =>
    simp only [List.lookup] at h
    cases hk : (k == p.1) with
    | true =>
      have : p.1 = k := (beq_iff_eq.mp hk).symm
      simp [List.any, this]
    | false =>
      rw [hk] at h
      simp [List.any, ih h]

theorem any_of_lookup_none {st : Store} {k : String}
    (h : st.lookup k = none) : st.any (fun p => p.1 == k) = false := by
  induction st with
  | nil => simp
  | cons p tl ih =>
    simp only [List.lookup] at h
    cases hk : (k == p.1) with
    | true => rw [hk] at h; exact absurd h (by simp)
    | false =>
      rw [hk] at h
      have hp : (p.1 == k) = false := by
        cases hpk : (p.1 == k) with
        | true =>
          have : p.1 = k := beq_iff_eq.mp hpk
          rw [this] at hk; simp at hk
        | false => rfl
      simp [List.any, hp, ih h]

theorem isSome_lookup_eq_any (st : Store) (k : String) :
    (st.lookup k).isSome = st.any (fun p => p.1 == k) := by
  cases h : st.lookup k with
  | none => simp [any_of_lookup_none h]
  | some v => simp [any_of_lookup_some h]

-- ### Behaviour of the expiry helper

theorem isExpired_absent {st : Store} {k : String} {now : Nat}
    (h : st.lookup k = none) : SE.isExpired st k now = (false, st) := by
  simp [SE.isExpired, h]

theorem isExpired_live {st : Store} {k : String} {now : Nat} {v : RedisValue}
    (h : st.lookup k = some v) (hl : valExpired v now = false) :
    SE.isExpired st k now = (false, st) := by
  simp [SE.isExpired, h, hl]

theorem isExpired_dead {st : Store} {k : String} {now : Nat} {v : RedisValue}
    (h : st.lookup k = some v) (hl : valExpired v now = true) :
    SE.isExpired st k now = (true, eraseKey st k) := by
  simp [SE.isExpired, h, hl]

-- ### String operations

namespace SE

/-- `StorageEngine::set`: unconditional insert-or-replace with a fresh
scalar value; no expiry check, no type check. -/
def set (st : Store) (k : String) (value : String) (ttl : Int) (now : Nat) :
    Bool × Store :=
  (true, setEntry st k ⟨.str value, ttlExpiry now ttl⟩)

/-- `StorageEngine::get`: expiry check (which may erase), then lookup, then
the scalar-tag check; wrong tag or absent ⇒ `none`. -/
def get (st : Store) (k : String) (now : Nat) : Option String × Store :=
  let p := isExpired st k now
  if p.1 then (none, p.2)
  else
    match p.2.lookup k with
    | none => (none, p.2)
    | some v =>
      match v.data with
      | .str s => (some s, p.2)
      | _ => (none, p.2)

-- ### List operations

/-- `StorageEngine::lpush`: the batch is inserted at the head with the
batch reversed (`values.rbegin()..rend()`); a fresh list is created on an
absent key; wrong tag ⇒ `0` and no change.  (The `store_.erase(key)` the
C++ performs after a positive expiry check is a no-op: `isExpired` has
already erased the entry.) -/
def lpush (st : Store) (k : String) (values : List String) (now : Nat) :
    Nat × Store :=
  let st1 := (isExpired st k now).2
  match st1.lookup k with
  | none =>
    let l := values.reverse
    (l.length, setEntry st1 k ⟨.list l, none⟩)
  | some v =>
    match v.data with
    | .list l =>
      let l2 := values.reverse ++ l
      (l2.length, setEntry st1 k ⟨.list l2, v.expiry⟩)
    | _ => (0, st1)

/-- `StorageEngine::rpush`: batch appended at the tail in batch order. -/
def rpush (st : Store) (k : String) (values : List String) (now : Nat) :
    Nat × Store :=
  let st1 := (isExpired st k now).2
  match st1.lookup k with
  | none => (values.length, setEntry st1 k ⟨.list values, none⟩)
  | some v =>
    match v.data with
    | .list l =>
      let l2 := l ++ values
      (l2.length, setEntry st1 k ⟨.list l2, v.expiry⟩)
    | _ => (0, st1)

/-- `StorageEngine::lpop`: remove and return the head; the key is erased
when the list becomes empty. -/
def lpop (st : Store) (k : String) (now : Nat) : Option String × Store :=
  let p := isExpired st k now
  if p.1 then (none, p.2)
  else
    match p.2.lookup k with
    | none => (none, p.2)
    | some v =>
      match v.data with
      | .list [] => (none, p.2)
      | .list (x :: rest) =>
        if rest.isEmpty then (some x, eraseKey p.2 k)
        else (some x, setEntry p.2 k ⟨.list rest, v.expiry⟩)
      | _ => (none, p.2)

/-- `StorageEngine::rpop`: remove and return the tail; the key is erased
when the list becomes empty. -/
def rpop (st : Store) (k : String) (now : Nat) : Option String × Store :=
  let p := isExpired st k now
  if p.1 then (none, p.2)
  else
    match p.2.lookup k with
    | none => (none, p.2)
    | some v =>
      match v.data with
      | .list [] => (none, p.2)
      | .list (x :: xs) =>
        let rest := (x :: xs).dropLast
        let last := (x :: xs).getLast (List.cons_ne_nil x xs)
        if rest.isEmpty then (some last, eraseKey p.2 k)
        else (some last, setEntry p.2 k ⟨.list rest, v.expiry⟩)
      | _ => (none, p.2)

end SE

/-- The slice `vector(list.begin() + a, list.begin() + b + 1)` of
`lrange`, made total: it reads the elements at indices `a..b`, which is in
bounds only when `b < length`; the out-of-bounds constructor call
(undefined behaviour in C++) is represented by `none`. -/
def sliceIncl (l : List String) (a b : Nat) : Option (List String) :=
  if b < l.length then some ((l.drop a).take (b - a + 1)) else none

/-- The index arithmetic of `StorageEngine::lrange` on a found list:
Python-style negative-index resolution, clamping of both bounds into
`[0, size−1]`, empty on `start > stop`, otherwise the inclusive slice
(via `sliceIncl`, so the out-of-bounds construction shows up as `none`). -/
def rangeCore (l : List String) (start stop : Int) : Option (List String) :=
  let size : Int := l.length
  let s0 := if start < 0 then size + start else start
  let e0 := if stop < 0 then size + stop else stop
  let s1 := max 0 (min s0 (size - 1))
  let e1 := max 0 (min e0 (size - 1))
  if s1 > e1 then some []
  else sliceIncl l s1.toNat e1.toNat

/-- The range behaviour the specification describes (§4.2): resolve a
negative index `i` to `n + i`, clamp each bound into `[0, n−1]`, empty
when the clamped start exceeds the clamped stop, otherwise the inclusive
slice from the clamped start to the clamped stop. -/
def rangeSpec (l : List String) (start stop : Int) : List String :=
  let n : Int := l.length
  let s0 := if start < 0 then n + start else start
  let e0 := if stop < 0 then n + stop else stop
  let s1 := max 0 (min s0 (n - 1))
  let e1 := max 0 (min e0 (n - 1))
  if s1 > e1 then []
  else (l.drop s1.toNat).take (e1 - s1 + 1).toNat

namespace SE

/-- `StorageEngine::lrange`: expiry check (which may erase), tag check,
then the `rangeCore` index arithmetic.  The result is an `Option`: `some`
of the returned vector on every defined path, `none` on the out-of-bounds
slice construction. -/
def lrange (st : Store) (k : String) (start stop : Int) (now : Nat) :
    Option (List String) × Store :=
  let p := isExpired st k now
  if p.1 then (some [], p.2)
  else
    match p.2.lookup k with
    | none => (some [], p.2)
    | some v =>
      match v.data with
      | .list l => (rangeCore l start stop, p.2)
      | _ => (some [], p.2)

/-- `StorageEngine::llen`. -/
def llen (st : Store) (k : String) (now : Nat) : Nat × Store :=
  let p := isExpired st k now
  if p.1 then (0, p.2)
  else
    match p.2.lookup k with
    | none => (0, p.2)
    | some v =>
      match v.data with
      | .list l => (l.length, p.2)
      | _ => (0, p.2)

end SE

-- ### Set operations

/-- One step of the `sadd` insertion loop: `set.insert(member).second`
counts only members not already present. -/
def saddStep (p : Finset String × Nat) (m : String) : Finset String × Nat :=
  if m ∈ p.1 then p else (insert m p.1, p.2 + 1)

/-- One step of the `srem` loop: `set.erase(member)` returns 1 only when
the member was present. -/
def sremStep (p : Finset String × Nat) (m : String) : Finset String × Nat :=
  if m ∈ p.1 then (p.1.erase m, p.2 + 1) else p

namespace SE

/-- `StorageEngine::sadd`: fresh set from the whole batch on an absent key
(returning its size); otherwise insert one by one counting genuinely new
members; wrong tag ⇒ `0`. -/
def sadd (st : Store) (k : String) (members : List String) (now : Nat) :
    Nat × Store :=
  let st1 := (isExpired st k now).2
  match st1.lookup k with
  | none =>
    let s := members.toFinset
    (s.card, setEntry st1 k ⟨.set s, none⟩)
  | some v =>
    match v.data with
    | .set s =>
      let r := members.foldl saddStep (s, 0)
      (r.2, setEntry st1 k ⟨.set r.1, v.expiry⟩)
    | _ => (0, st1)

/-- `StorageEngine::srem`: erase one by one counting hits; the key is
erased when the set becomes empty. -/
def srem (st : Store) (k : String) (members : List String) (now : Nat) :
    Nat × Store :=
  let p := isExpired st k now
  if p.1 then (0, p.2)
  else
    match p.2.lookup k with
    | none => (0, p.2)
    | some v =>
      match v.data with
      | .set s =>
        let r := members.foldl sremStep (s, 0)
        if r.1 = ∅ then (r.2, eraseKey p.2 k)
        else (r.2, setEntry p.2 k ⟨.set r.1, v.expiry⟩)
      | _ => (0, p.2)

/-- `StorageEngine::sismember`. -/
def sismember (st : Store) (k : String) (m : String) (now : Nat) :
    Bool × Store :=
  let p := isExpired st k now
  if p.1 then (false, p.2)
  else
    match p.2.lookup k with
    | none => (false, p.2)
    | some v =>
      match v.data with
      | .set s => (decide (m ∈ s), p.2)
      | _ => (false, p.2)

/-- `StorageEngine::smembers` (the C++ returns the elements in unspecified
order; the model returns the set itself). -/
def smembers (st : Store) (k : String) (now : Nat) : Finset String × Store :=
  let p := isExpired st k now
  if p.1 then (∅, p.2)
  else
    match p.2.lookup k with
    | none => (∅, p.2)
    | some v =>
      match v.data with
      | .set s => (s, p.2)
      | _ => (∅, p.2)

/-- `StorageEngine::scard`. -/
def scard (st : Store) (k : String) (now : Nat) : Nat × Store :=
  let p := isExpired st k now
  if p.1 then (0, p.2)
  else
    match p.2.lookup k with
    | none => (0, p.2)
    | some v =>
      match v.data with
      | .set s => (s.card, p.2)
      | _ => (0, p.2)

end SE

-- ### Hash operations

/-- `hash.erase(field)` on the field map. -/
def hashErase (h : List (String × String)) (f : String) : List (String × String) :=
  h.filter (fun p => p.1 != f)

/-- One step of the `hdel` loop: `deleted += hash.erase(field)`. -/
def hdelStep (p : List (String × String) × Nat) (f : String) :
    List (String × String) × Nat :=
  if p.1.any (fun q => q.1 == f) then (hashErase p.1 f, p.2 + 1) else p

/-- `hash[field] = value`: overwrite in place when the field exists,
otherwise append the new pair. -/
def hashSet (h : List (String × String)) (f val : String) :
    List (String × String) :=
  if h.any (fun q => q.1 == f) then
    h.map (fun q => if q.1 == f then (f, val) else q)
  else h ++ [(f, val)]

namespace SE

/-- `StorageEngine::hset`: fresh one-field map on an absent key; insert or
overwrite on a hash; wrong tag ⇒ `false` and no change. -/
def hset (st : Store) (k : String) (f val : String) (now : Nat) :
    Bool × Store :=
  let st1 := (isExpired st k now).2
  match st1.lookup k with
  | none => (true, setEntry st1 k ⟨.hash [(f, val)], none⟩)
  | some v =>
    match v.data with
    | .hash h => (true, setEntry st1 k ⟨.hash (hashSet h f val), v.expiry⟩)
    | _ => (false, st1)

/-- `StorageEngine::hget`. -/
def hget (st : Store) (k : String) (f : String) (now : Nat) :
    Option String × Store :=
  let p := isExpired st k now
  if p.1 then (none, p.2)
  else
    match p.2.lookup k with
    | none => (none, p.2)
    | some v =>
      match v.data with
      | .hash h => (h.lookup f, p.2)
      | _ => (none, p.2)

/-- `StorageEngine::hdel`: erase one by one counting hits; the key is
erased when the map becomes empty. -/
def hdel (st : Store) (k : String) (fields : List String) (now : Nat) :
    Nat × Store :=
  let p := isExpired st k now
  if p.1 then (0, p.2)
  else
    match p.2.lookup k with
    | none => (0, p.2)
    | some v =>
      match v.data with
      | .hash h =>
        let r := fields.foldl hdelStep (h, 0)
        if r.1.isEmpty then (r.2, eraseKey p.2 k)
        else (r.2, setEntry p.2 k ⟨.hash r.1, v.expiry⟩)
      | _ => (0, p.2)

/-- `StorageEngine::hexists`. -/
def hexists (st : Store) (k : String) (f : String) (now : Nat) :
    Bool × Store :=
  let p := isExpired st k now
  if p.1 then (false, p.2)
  else
    match p.2.lookup k with
    | none => (false, p.2)
    | some v =>
      match v.data with
      | .hash h => (h.any (fun q => q.1 == f), p.2)
      | _ => (false, p.2)

/-- `StorageEngine::hgetall`. -/
def hgetall (st : Store) (k : String) (now : Nat) :
    List (String × String) × Store :=
  let p := isExpired st k now
  if p.1 then ([], p.2)
  else
    match p.2.lookup k with
    | none => ([], p.2)
    | some v =>
      match v.data with
      | .hash h => (h, p.2)
      | _ => ([], p.2)

/-- `StorageEngine::hlen`. -/
def hlen (st : Store) (k : String) (now : Nat) : Nat × Store :=
  let p := isExpired st k now
  if p.1 then (0, p.2)
  else
    match p.2.lookup k with
    | none => (0, p.2)
    | some v =>
      match v.data with
      | .hash h => (h.length, p.2)
      | _ => (0, p.2)

-- ### General operations

/-- `StorageEngine::remove` (the DEL command): `store_.erase(key) > 0` —
note: no expiry check of any kind. -/
def remove (st : Store) (k : String) : Bool × Store :=
  (st.any (fun p => p.1 == k), eraseKey st k)

/-- `StorageEngine::exists`: expiry check (which may erase), then a plain
find. -/
def existsKey (st : Store) (k : String) (now : Nat) : Bool × Store :=
  let p := isExpired st k now
  if p.1 then (false, p.2)
  else (p.2.any (fun q => q.1 == k), p.2)

/-- `StorageEngine::type` (the TYPE command). -/
def type (st : Store) (k : String) (now : Nat) : Option ValueType × Store :=
  let p := isExpired st k now
  if p.1 then (none, p.2)
  else
    match p.2.lookup k with
    | none => (none, p.2)
    | some v => (some (tagOf v.data), p.2)

/-- `StorageEngine::ttl`: −2 when physically absent; −1 when no deadline;
when the remaining duration is ≤ 0 the entry is erased and −2 returned;
otherwise `duration_cast<seconds>` truncates the positive remainder, i.e.
the whole-second floor (1000 model ticks per second). -/
def ttl (st : Store) (k : String) (now : Nat) : Int × Store :=
  match st.lookup k with
  | none => (-2, st)
  | some v =>
    match v.expiry with
    | none => (-1, st)
    | some d =>
      if d ≤ now then (-2, eraseKey st k)
      else (((d - now) / 1000 : Nat), st)

end SE

-- ### Observer behaviour on an absent key

theorem existsKey_absent {st : Store} {k : String} {now : Nat}
    (h : st.lookup k = none) : SE.existsKey st k now = (false, st) := by
  simp [SE.existsKey, isExpired_absent h, any_of_lookup_none h]

theorem type_absent {st : Store} {k : String} {now : Nat}
    (h : st.lookup k = none) : SE.type st k now = (none, st) := by
  simp [SE.type, isExpired_absent h, h]

-- ### The `sadd` insertion loop

theorem sadd_foldl (ms : List String) : ∀ (s : Finset String) (c : Nat),
    ms.foldl saddStep (s, c) = (s ∪ ms.toFinset, c + (ms.toFinset \ s).card) := by
  induction ms with
  | nil => intro s c; simp
  | cons m tl ih =>
    intro s c
    by_cases hm : m ∈ s
    · rw [List.foldl_cons]
      simp only [saddStep, if_pos hm]
      rw [ih s c]
      have h1 : s ∪ (m :: tl).toFinset = s ∪ tl.toFinset := by
        ext a
        simp only [Finset.mem_union, List.toFinset_cons, Finset.mem_insert]
        constructor
        · rintro (ha | rfl | ha) <;> [exact Or.inl ha; exact Or.inl hm; exact Or.inr ha]
        · rintro (ha | ha) <;> [exact Or.inl ha; exact Or.inr (Or.inr ha)]
      have h2 : (m :: tl).toFinset \ s = tl.toFinset \ s := by
        ext a
        simp only [List.toFinset_cons, Finset.mem_sdiff, Finset.mem_insert]
        constructor
        · rintro ⟨rfl | ha, hs⟩ <;> [exact absurd hm hs; exact ⟨ha, hs⟩]
        · rintro ⟨ha, hs⟩; exact ⟨Or.inr ha, hs⟩
      rw [h1, h2]
    · rw [List.foldl_cons]
      simp only [saddStep, if_neg hm]
      rw [ih (insert m s) (c + 1)]
      have h1 : insert m s ∪ tl.toFinset = s ∪ (m :: tl).toFinset := by
        ext a
        simp only [Finset.mem_union, Finset.mem_insert, List.toFinset_cons]
        tauto
      have h2 : ((m :: tl).toFinset \ s).card = (tl.toFinset \ insert m s).card + 1 := by
        have e1 : (m :: tl).toFinset \ s = insert m (tl.toFinset \ s) := by
          ext a
          simp only [List.toFinset_cons, Finset.mem_sdiff, Finset.mem_insert]
          constructor
          · rintro ⟨rfl | ha, hs⟩ <;> [exact Or.inl rfl; exact Or.inr ⟨ha, hs⟩]
          · rintro (rfl | ⟨ha, hs⟩) <;> [exact ⟨Or.inl rfl, hm⟩; exact ⟨Or.inr ha, hs⟩]
        have e2 : tl.toFinset \ insert m s = (tl.toFinset \ s).erase m := by
          ext a
          simp only [Finset.mem_sdiff, Finset.mem_insert, Finset.mem_erase]
          tauto
        rw [e1, e2]
        by_cases hmT : m ∈ tl.toFinset \ s
        · rw [Finset.insert_eq_self.mpr hmT, Finset.card_erase_of_mem hmT]
          have : 0 < (tl.toFinset \ s).card := Finset.card_pos.mpr ⟨m, hmT⟩
          omega
        · rw [Finset.card_insert_of_not_mem hmT, Finset.erase_eq_of_not_mem hmT]
      simp only [Prod.mk.injEq]
      refine ⟨h1, ?_⟩
      rw [h2]
      omega

-- ### The `srem` removal loop

theorem srem_foldl_set (ms : List String) : ∀ (s : Finset String) (c : Nat),
    (ms.foldl sremStep (s, c)).1 = s \ ms.toFinset := by
  induction ms with
  | nil => intro s c; simp
  | cons m tl ih =>
    intro s c
    rw [List.foldl_cons]
    by_cases hm : m ∈ s
    · simp only [sremStep, if_pos hm]
      rw [ih (s.erase m) (c + 1)]
      ext a
      simp only [Finset.mem_sdiff, Finset.mem_erase, List.toFinset_cons,
        Finset.mem_insert]
      tauto
    · simp only [sremStep, if_neg hm]
      rw [ih s c]
      ext a
      simp only [Finset.mem_sdiff, List.toFinset_cons, Finset.mem_insert]
      constructor
      · rintro ⟨ha, hna⟩
        refine ⟨ha, ?_⟩
        rintro (rfl | hmem) <;> [exact hm ha; exact hna hmem]
      · rintro ⟨ha, hna⟩
        exact ⟨ha, fun hmem => hna (Or.inr hmem)⟩

-- ### The `hdel` removal loop

theorem hdelStep_fst (h : List (String × String)) (c : Nat) (f : String) :
    (hdelStep (h, c) f).1 = h.filter (fun p => p.1 != f) := by
  by_cases hany : h.any (fun q => q.1 == f) = true
  · simp [hdelStep, hashErase, hany]
  · have hb : h.any (fun q => q.1 == f) = false := by
      cases hb : h.any (fun q => q.1 == f) with
      | true => exact absurd hb hany
      | false => rfl
    have hall : ∀ p ∈ h, (p.1 != f) = true := by
      intro q hq
      cases hqf : (q.1 == f) with
      | true => exact absurd (List.any_eq_true.mpr ⟨q, hq, hqf⟩) hany
      | false => simp [bne, hqf]
    simp only [hdelStep, hb, if_false, Bool.false_eq_true]
    exact (List.filter_eq_self.mpr hall).symm

theorem hdel_foldl_nil (fs : List String) : ∀ (h : List (String × String)) (c : Nat),
    (∀ p ∈ h, p.1 ∈ fs) → (fs.foldl hdelStep (h, c)).1 = [] := by
  induction fs with
  | nil =>
    intro h c hsub
    cases h with
    | nil => simp
    | cons p tl => exact absurd (hsub p (by simp)) (by simp)
  | cons f tl ih =>
    intro h c hsub
    rw [List.foldl_cons]
    have heta : hdelStep (h, c) f =
        ((hdelStep (h, c) f).1, (hdelStep (h, c) f).2) := rfl
    rw [heta, hdelStep_fst]
    apply ih
    intro p hp
    have hmem := List.mem_filter.mp hp
    have hne : p.1 ≠ f := by simpa [bne] using hmem.2
    have := hsub p hmem.1
    simp only [List.mem_cons] at this
    rcases this with h1 | h1
    · exact absurd h1 hne
    · exact h1

-- ### Range arithmetic on a non-empty list

theorem rangeCore_eq (l : List String) (hne : l ≠ []) (start stop : Int) :
    rangeCore l start stop = some (rangeSpec l start stop) := by
  have hlen : 1 ≤ (l.length : Int) := by
    have := List.length_pos.mpr hne
    exact_mod_cast this
  simp only [rangeCore, rangeSpec]
  set s1 := max 0 (min (if start < 0 then (l.length : Int) + start else start)
    ((l.length : Int) - 1)) with hs1
  set e1 := max 0 (min (if stop < 0 then (l.length : Int) + stop else stop)
    ((l.length : Int) - 1)) with he1
  by_cases hgt : s1 > e1
  · simp [hgt]
  · have hs1nn : 0 ≤ s1 := le_max_left _ _
    have he1le : e1 ≤ (l.length : Int) - 1 := by
      rw [he1]
      exact max_le (by omega) (min_le_right _ _)
    have hbound : e1.toNat < l.length := by omega
    have hcount : (e1 - s1 + 1).toNat = e1.toNat - s1.toNat + 1 := by omega
    simp [hgt, sliceIncl, hbound, hcount]

-- ### Claim theorems

/-- C1: the claim states that no operation the concurrency wrapper runs
under a shared (read) permit ever changes the key→Entry mapping, and in
particular that no TTL-driven physical deletion happens on a shared-permit
path.  The code violates this: `ThreadSafeStore::get` and
`ThreadSafeStore::ttl` take only a `shared_lock`, yet on a key whose entry
is past its deadline the engine physically erases the entry (`isExpired`
erases inside `get`; `ttl` erases directly).  Witnessed here on the
one-entry store `{"k" ↦ Scalar "v", deadline 5}` at time 10: both
shared-permit operations return the absent result and leave the store
empty, so the mapping changed. -/
theorem C1_shared_permit_read_purges_expired :
    SE.get [("k", ⟨.str "v", some 5⟩)] "k" 10 = (none, []) ∧
    SE.ttl [("k", ⟨.str "v", some 5⟩)] "k" 10 = (-2, []) ∧
    ([("k", (⟨.str "v", some 5⟩ : RedisValue))] : Store) ≠ [] := by
  refine ⟨by decide, by decide, by decide⟩

/-- C2 counterexample: after `push_right("L", ["x","y"])` and
`push_left("L", ["z"])` the stored list is `["z","x","y"]`, but
`range("L", 5, 10)` does not return the empty sequence as claimed: the
code clamps the start bound 5 down to the last index 2, so the call
returns `["y"]`. -/
theorem C2_counterexample_range_5_10 :
    (SE.lrange (SE.lpush (SE.rpush [] "L" ["x", "y"] 0).2 "L" ["z"] 0).2
        "L" 5 10 0).1 = some ["y"] ∧
    (some ["y"] : Option (List String)) ≠ some [] := by
  refine ⟨by decide, by decide⟩

/-- C2 amended: starting from a store in which key "L" is absent, after
`push_right("L", ["x","y"])` followed by `push_left("L", ["z"])`, the
stored sequence is `["z","x","y"]`, `range("L", 0, -1)` returns exactly
`["z","x","y"]`, and `range("L", 5, 10)` on this 3-element list returns
`["y"]` (both out-of-range bounds are clamped to the last index, giving
the inclusive slice `[2,2]`). -/
theorem C2_amended_range_clamping :
    ((SE.lpush (SE.rpush [] "L" ["x", "y"] 0).2 "L" ["z"] 0).2.lookup "L"
        = some ⟨.list ["z", "x", "y"], none⟩) ∧
    (SE.lrange (SE.lpush (SE.rpush [] "L" ["x", "y"] 0).2 "L" ["z"] 0).2
        "L" 0 (-1) 0).1 = some ["z", "x", "y"] ∧
    (SE.lrange (SE.lpush (SE.rpush [] "L" ["x", "y"] 0).2 "L" ["z"] 0).2
        "L" 5 10 0).1 = some ["y"] := by
  refine ⟨by decide, by decide, by decide⟩

/-- C3 counterexample: on the store `{"k" ↦ Scalar "v", deadline 5}` at
time 10 the entry is expired (logically absent), yet `delete_key("k")`
returns `true`, not `false` as the claim requires —
`StorageEngine::remove` performs no expiry check at all. -/
theorem C3_counterexample_remove_expired :
    valExpired ⟨.str "v", some 5⟩ 10 = true ∧
    (SE.remove [("k", ⟨.str "v", some 5⟩)] "k").1 = true := by
  refine ⟨by decide, by decide⟩

/-- C3 amended: `delete_key` reports existence with respect to *physical*
presence, not logical presence: it returns `true` exactly when the key is
physically in the Store — regardless of any deadline, even one already
past — and afterwards the key is gone. -/
theorem C3_amended_remove_reports_physical_presence (st : Store) (k : String) :
    (SE.remove st k).1 = (st.lookup k).isSome ∧
    ((SE.remove st k).2).lookup k = none := by
  constructor
  · simpa [SE.remove] using (isSome_lookup_eq_any st k).symm
  · simpa [SE.remove] using lookup_eraseKey_self st k

/-- C9: the claim states that every element access `range` performs is in
bounds, the out-of-bounds branch being unreachable from any reachable
store.  It is reachable: `push_left("L", [])` on the empty store stores a
zero-length Sequence, and `range("L", 0, 0)` on it clamps both bounds to 0
and then constructs the slice `[begin, begin+1)` of an empty vector — an
out-of-bounds access (`none` in the total embedding). -/
theorem C9_range_out_of_bounds_reachable :
    ((SE.lpush [] "L" [] 0).2).lookup "L" = some ⟨.list [], none⟩ ∧
    (SE.lrange ((SE.lpush [] "L" [] 0).2) "L" 0 0 0).1 = none := by
  refine ⟨by decide, by decide⟩

/-- C5: for every key holding a non-expired, non-empty Sequence and every
pair of integer bounds, `range` first resolves negative indices against
the length, then clamps both bounds into `[0, n−1]`, returns the empty
sequence when the clamped start exceeds the clamped stop, and otherwise
returns the inclusive slice — exactly the behaviour captured by
`rangeSpec`; the store is left unchanged. -/
theorem C5_range_resolve_clamp_inclusive (st : Store) (k : String) (now : Nat)
    (v : RedisValue) (l : List String) (h : st.lookup k = some v)
    (hl : valExpired v now = false) (hd : v.data = .list l) (hne : l ≠ []) :
    ∀ start stop : Int,
      SE.lrange st k start stop now = (some (rangeSpec l start stop), st) := by
  intro start stop
  have hE := isExpired_live h hl
  simp [SE.lrange, hE, h, hd, rangeCore_eq l hne start stop]

/-- C5 witness: on the store `{"L" ↦ Sequence ["a","b","c"]}` the theorem
applies with bounds `(1, -1)` and evaluates to the inclusive slice
`["b","c"]`. -/
theorem C5_witness :
    SE.lrange [("L", ⟨.list ["a", "b", "c"], none⟩)] "L" 1 (-1) 0 =
      (some (rangeSpec ["a", "b", "c"] 1 (-1)),
        [("L", ⟨.list ["a", "b", "c"], none⟩)]) ∧
    rangeSpec ["a", "b", "c"] 1 (-1) = ["b", "c"] := by
  refine ⟨?_, by decide⟩
  exact C5_range_resolve_clamp_inclusive _ "L" 0 ⟨.list ["a", "b", "c"], none⟩
    ["a", "b", "c"] (by decide) (by decide) rfl (by decide) 1 (-1)

/-- C7: `remaining_ttl` returns −2 on a physically absent key; −1 on a key
present with no deadline; −2 with the entry physically purged when the
deadline is found reached at the call; and otherwise the whole-second
floor of the remaining time (the model clock runs at 1000 ticks per
second, and the two flooring inequalities are stated explicitly). -/
theorem C7_remaining_ttl_semantics (st : Store) (k : String) (now : Nat) :
    (st.lookup k = none → SE.ttl st k now = (-2, st)) ∧
    (∀ v, st.lookup k = some v → v.expiry = none →
      SE.ttl st k now = (-1, st)) ∧
    (∀ v d, st.lookup k = some v → v.expiry = some d → d ≤ now →
      SE.ttl st k now = (-2, eraseKey st k)) ∧
    (∀ v d, st.lookup k = some v → v.expiry = some d → now < d →
      SE.ttl st k now = ((((d - now) / 1000 : Nat) : Int), st) ∧
      1000 * ((d - now) / 1000) ≤ d - now ∧
      d - now < 1000 * ((d - now) / 1000 + 1)) := by
  refine ⟨?_, ?_, ?_, ?_⟩
  · intro h
    simp [SE.ttl, h]
  · intro v h he
    simp [SE.ttl, h, he]
  · intro v d h he hd
    simp [SE.ttl, h, he, hd]
  · intro v d h he hd
    refine ⟨?_, by omega, by omega⟩
    simp [SE.ttl, h, he, Nat.not_le.mpr hd]

/-- C7 witness: all four cases at concrete inputs; in particular with
deadline 4500 ticks and current time 1000 ticks the remaining 3.5 seconds
floor to 3. -/
theorem C7_witness :
    SE.ttl [] "k" 1000 = (-2, []) ∧
    SE.ttl [("k", ⟨.str "v", none⟩)] "k" 1000 =
      (-1, [("k", ⟨.str "v", none⟩)]) ∧
    SE.ttl [("k", ⟨.str "v", some 500⟩)] "k" 1000 = (-2, []) ∧
    SE.ttl [("k", ⟨.str "v", some 4500⟩)] "k" 1000 =
      (3, [("k", ⟨.str "v", some 4500⟩)]) := by
  refine ⟨?_, ?_, ?_, ?_⟩
  · exact (C7_remaining_ttl_semantics [] "k" 1000).1 rfl
  · exact (C7_remaining_ttl_semantics _ "k" 1000).2.1 _ rfl rfl
  · have h := (C7_remaining_ttl_semantics [("k", ⟨.str "v", some 500⟩)]
      "k" 1000).2.2.1 ⟨.str "v", some 500⟩ 500 rfl rfl (by omega)
    simpa using h
  · have h := ((C7_remaining_ttl_semantics [("k", ⟨.str "v", some 4500⟩)]
      "k" 1000).2.2.2 ⟨.str "v", some 4500⟩ 4500 rfl rfl (by omega)).1
    simpa using h

/-- C10: `push_left`, `push_right` or `add` called with an empty batch on
a physically absent key stores an empty container of the corresponding
variant and returns 0; immediately afterwards the key exists, its variant
is the container's tag, and its length/cardinality is 0 — the empty
container persists. -/
theorem C10_empty_batch_creates_empty_container (st : Store) (k : String)
    (now : Nat) (h : st.lookup k = none) :
    (SE.lpush st k [] now = (0, setEntry st k ⟨.list [], none⟩) ∧
      SE.rpush st k [] now = (0, setEntry st k ⟨.list [], none⟩) ∧
      (setEntry st k ⟨.list [], none⟩).lookup k = some ⟨.list [], none⟩ ∧
      SE.existsKey (setEntry st k ⟨.list [], none⟩) k now =
        (true, setEntry st k ⟨.list [], none⟩) ∧
      SE.type (setEntry st k ⟨.list [], none⟩) k now =
        (some .LIST, setEntry st k ⟨.list [], none⟩) ∧
      SE.llen (setEntry st k ⟨.list [], none⟩) k now =
        (0, setEntry st k ⟨.list [], none⟩)) ∧
    (SE.sadd st k [] now = (0, setEntry st k ⟨.set ∅, none⟩) ∧
      (setEntry st k ⟨.set ∅, none⟩).lookup k = some ⟨.set ∅, none⟩ ∧
      SE.existsKey (setEntry st k ⟨.set ∅, none⟩) k now =
        (true, setEntry st k ⟨.set ∅, none⟩) ∧
      SE.type (setEntry st k ⟨.set ∅, none⟩) k now =
        (some .SET, setEntry st k ⟨.set ∅, none⟩) ∧
      SE.scard (setEntry st k ⟨.set ∅, none⟩) k now =
        (0, setEntry st k ⟨.set ∅, none⟩)) := by
  have hE := @isExpired_absent st k now h
  have hlkL := lookup_setEntry_self st k ⟨.list [], none⟩
  have hlivL : valExpired (⟨.list [], none⟩ : RedisValue) now = false := rfl
  have hEL := isExpired_live hlkL hlivL
  have hlkS := lookup_setEntry_self st k ⟨.set ∅, none⟩
  have hlivS : valExpired (⟨.set ∅, none⟩ : RedisValue) now = false := rfl
  have hES := isExpired_live hlkS hlivS
  refine ⟨⟨?_, ?_, hlkL, ?_, ?_, ?_⟩, ?_, hlkS, ?_, ?_, ?_⟩
  · simp [SE.lpush, hE, h]
  · simp [SE.rpush, hE, h]
  · simp [SE.existsKey, hEL, any_of_lookup_some hlkL]
  · simp [SE.type, hEL, hlkL, tagOf]
  · simp [SE.llen, hEL, hlkL]
  · simp [SE.sadd, hE, h]
  · simp [SE.existsKey, hES, any_of_lookup_some hlkS]
  · simp [SE.type, hES, hlkS, tagOf]
  · simp [SE.scard, hES, hlkS]

/-- C10 witness: instantiated on the empty store with key "k" at time 0. -/
theorem C10_witness :
    SE.lpush [] "k" [] 0 = (0, setEntry [] "k" ⟨.list [], none⟩) ∧
    SE.existsKey (setEntry [] "k" ⟨.list [], none⟩) "k" 0 =
      (true, setEntry [] "k" ⟨.list [], none⟩) ∧
    SE.type (setEntry [] "k" ⟨.list [], none⟩) "k" 0 =
      (some .LIST, setEntry [] "k" ⟨.list [], none⟩) ∧
    SE.llen (setEntry [] "k" ⟨.list [], none⟩) "k" 0 =
      (0, setEntry [] "k" ⟨.list [], none⟩) ∧
    SE.sadd [] "k" [] 0 = (0, setEntry [] "k" ⟨.set ∅, none⟩) ∧
    SE.scard (setEntry [] "k" ⟨.set ∅, none⟩) "k" 0 =
      (0, setEntry [] "k" ⟨.set ∅, none⟩) := by
  have h := C10_empty_batch_creates_empty_container [] "k" 0 rfl
  exact ⟨h.1.1, h.1.2.2.2.1, h.1.2.2.2.2.1, h.1.2.2.2.2.2, h.2.1,
    h.2.2.2.2.2⟩

/-- C8: `add(key, members)` returns the number of members not already
present before the call, duplicates inside the batch counted once — i.e.
`(members.toFinset \ prior).card` — both when it creates a fresh set on an
absent key (prior = ∅, so the count is `members.toFinset.card`) and when
it extends an existing set; afterwards the stored set is the union of the
prior members and the batch.  Concretely, `add("S", ["a","b"])` then
`add("S", ["b","c"])` returns 1 and `members("S")` is `{"a","b","c"}`. -/
theorem C8_sadd_counts_new_members (st : Store) (k : String) (now : Nat)
    (ms : List String) :
    (st.lookup k = none →
      SE.sadd st k ms now =
        (ms.toFinset.card, setEntry st k ⟨.set ms.toFinset, none⟩)) ∧
    (∀ v s, st.lookup k = some v → valExpired v now = false →
      v.data = .set s →
      SE.sadd st k ms now =
        ((ms.toFinset \ s).card,
          setEntry st k ⟨.set (s ∪ ms.toFinset), v.expiry⟩)) ∧
    ((SE.sadd [] "S" ["a", "b"] 0).1 = 2 ∧
      (SE.sadd (SE.sadd [] "S" ["a", "b"] 0).2 "S" ["b", "c"] 0).1 = 1 ∧
      (SE.smembers
          (SE.sadd (SE.sadd [] "S" ["a", "b"] 0).2 "S" ["b", "c"] 0).2
          "S" 0).1 = ({"a", "b", "c"} : Finset String)) := by
  refine ⟨?_, ?_, by decide, by decide, by decide⟩
  · intro h
    have hE := @isExpired_absent st k now h
    simp [SE.sadd, hE, h]
  · intro v s h hl hd
    have hE := isExpired_live h hl
    simp [SE.sadd, hE, h, hd, sadd_foldl]

/-- C8 witness: extending the existing set `{"a"}` with the batch
`["a","b"]` returns 1 (only "b" is new) and stores `{"a","b"}`; the fresh
case on the empty store returns the batch's distinct count 2. -/
theorem C8_witness :
    SE.sadd [("S", ⟨.set {"a"}, none⟩)] "S" ["a", "b"] 0 =
      (((["a", "b"] : List String).toFinset \ {"a"}).card,
        setEntry [("S", ⟨.set {"a"}, none⟩)] "S"
          ⟨.set ({"a"} ∪ (["a", "b"] : List String).toFinset), none⟩) ∧
    ((["a", "b"] : List String).toFinset \ ({"a"} : Finset String)).card = 1 ∧
    SE.sadd [] "S" ["a", "b"] 0 =
      ((["a", "b"] : List String).toFinset.card,
        setEntry [] "S" ⟨.set (["a", "b"] : List String).toFinset, none⟩) := by
  refine ⟨?_, by decide, ?_⟩
  · exact (C8_sadd_counts_new_members [("S", ⟨.set {"a"}, none⟩)] "S" 0
      ["a", "b"]).2.1 ⟨.set {"a"}, none⟩ {"a"} rfl rfl rfl
  · exact (C8_sadd_counts_new_members [] "S" 0 ["a", "b"]).1 rfl

/-- C6: whenever `pop_left`/`pop_right` removes the last element of a
Sequence, `remove` drops every member of a UniqueSet, or `delete_fields`
drops every field of a FieldMap, the key is deleted from the Store
entirely: afterwards `key_exists` is false and `variant_of` is absent —
no empty container entry persists. -/
theorem C6_emptied_container_deletes_key (st : Store) (k : String)
    (now : Nat) (v : RedisValue) (h : st.lookup k = some v)
    (hl : valExpired v now = false) :
    (∀ x, v.data = .list [x] →
      SE.lpop st k now = (some x, eraseKey st k) ∧
      SE.rpop st k now = (some x, eraseKey st k) ∧
      SE.existsKey (eraseKey st k) k now = (false, eraseKey st k) ∧
      SE.type (eraseKey st k) k now = (none, eraseKey st k)) ∧
    (∀ s ms, v.data = .set s → (∀ m ∈ s, m ∈ ms) →
      (SE.srem st k ms now).2 = eraseKey st k ∧
      SE.existsKey (eraseKey st k) k now = (false, eraseKey st k) ∧
      SE.type (eraseKey st k) k now = (none, eraseKey st k)) ∧
    (∀ hm fs, v.data = .hash hm → (∀ p ∈ hm, p.1 ∈ fs) →
      (SE.hdel st k fs now).2 = eraseKey st k ∧
      SE.existsKey (eraseKey st k) k now = (false, eraseKey st k) ∧
      SE.type (eraseKey st k) k now = (none, eraseKey st k)) := by
  have hE := isExpired_live h hl
  have hgone := lookup_eraseKey_self st k
  have hex := @existsKey_absent (eraseKey st k) k now hgone
  have hty := @type_absent (eraseKey st k) k now hgone
  refine ⟨?_, ?_, ?_⟩
  · intro x hd
    refine ⟨?_, ?_, hex, hty⟩
    · simp [SE.lpop, hE, h, hd]
    · simp [SE.rpop, hE, h, hd]
  · intro s ms hd hsub
    have hempty : (ms.foldl sremStep (s, 0)).1 = ∅ := by
      rw [srem_foldl_set]
      exact Finset.sdiff_eq_empty_iff_subset.mpr
        (fun a ha => List.mem_toFinset.mpr (hsub a ha))
    refine ⟨?_, hex, hty⟩
    simp [SE.srem, hE, h, hd, hempty]
  · intro hm fs hd hsub
    have hnil : (fs.foldl hdelStep (hm, 0)).1 = [] :=
      hdel_foldl_nil fs hm 0 hsub
    refine ⟨?_, hex, hty⟩
    simp [SE.hdel, hE, h, hd, hnil]

/-- C6 witness: a one-element list popped, a one-member set fully removed
and a one-field map fully deleted, each on a concrete one-entry store; in
every case the key is gone afterwards. -/
theorem C6_witness :
    SE.lpop [("k", ⟨.list ["a"], none⟩)] "k" 0 =
      (some "a", eraseKey [("k", ⟨.list ["a"], none⟩)] "k") ∧
    SE.existsKey (eraseKey [("k", ⟨.list ["a"], none⟩)] "k") "k" 0 =
      (false, eraseKey [("k", ⟨.list ["a"], none⟩)] "k") ∧
    SE.type (eraseKey [("k", ⟨.list ["a"], none⟩)] "k") "k" 0 =
      (none, eraseKey [("k", ⟨.list ["a"], none⟩)] "k") ∧
    (SE.srem [("k", ⟨.set {"a"}, none⟩)] "k" ["a"] 0).2 =
      eraseKey [("k", ⟨.set {"a"}, none⟩)] "k" ∧
    (SE.hdel [("k", ⟨.hash [("f", "1")], none⟩)] "k" ["f"] 0).2 =
      eraseKey [("k", ⟨.hash [("f", "1")], none⟩)] "k" := by
  have h1 := (C6_emptied_container_deletes_key
    [("k", ⟨.list ["a"], none⟩)] "k" 0 ⟨.list ["a"], none⟩ rfl rfl).1 "a" rfl
  have h2 := (C6_emptied_container_deletes_key
    [("k", ⟨.set {"a"}, none⟩)] "k" 0 ⟨.set {"a"}, none⟩ rfl rfl).2.1
    {"a"} ["a"] rfl (by decide)
  have h3 := (C6_emptied_container_deletes_key
    [("k", ⟨.hash [("f", "1")], none⟩)] "k" 0 ⟨.hash [("f", "1")], none⟩
    rfl rfl).2.2 [("f", "1")] ["f"] rfl (by decide)
  exact ⟨h1.1, h1.2.2.1, h1.2.2.2, h2.1, h3.1⟩

/-- C4: on a key holding a non-expired entry whose variant differs from
the one an operation expects, every variant-specific mutating operation
(`push_left`, `push_right`, `pop_left`, `pop_right`, `add`, `remove`
(members), `set_field`, `delete_fields`) returns a zero/false/absent
result and leaves the entire Store unchanged, and every variant-specific
read operation returns absent/empty with the Store unchanged; the scalar
`set` is the sole exemption and replaces the entry unconditionally. -/
theorem C4_type_mismatch_is_silent_noop (st : Store) (k : String)
    (now : Nat) (v : RedisValue) (h : st.lookup k = some v)
    (hl : valExpired v now = false) :
    ((∀ l, v.data ≠ .list l) →
      (∀ vs, SE.lpush st k vs now = (0, st)) ∧
      (∀ vs, SE.rpush st k vs now = (0, st)) ∧
      SE.lpop st k now = (none, st) ∧
      SE.rpop st k now = (none, st) ∧
      (∀ a b, SE.lrange st k a b now = (some [], st)) ∧
      SE.llen st k now = (0, st)) ∧
    ((∀ s, v.data ≠ .set s) →
      (∀ ms, SE.sadd st k ms now = (0, st)) ∧
      (∀ ms, SE.srem st k ms now = (0, st)) ∧
      (∀ m, SE.sismember st k m now = (false, st)) ∧
      SE.smembers st k now = (∅, st) ∧
      SE.scard st k now = (0, st)) ∧
    ((∀ hm, v.data ≠ .hash hm) →
      (∀ f val, SE.hset st k f val now = (false, st)) ∧
      (∀ fs, SE.hdel st k fs now = (0, st)) ∧
      (∀ f, SE.hget st k f now = (none, st)) ∧
      (∀ f, SE.hexists st k f now = (false, st)) ∧
      SE.hgetall st k now = ([], st) ∧
      SE.hlen st k now = (0, st)) ∧
    ((∀ s, v.data ≠ .str s) → SE.get st k now = (none, st)) ∧
    (∀ value t, SE.set st k value t now =
      (true, setEntry st k ⟨.str value, ttlExpiry now t⟩)) := by
  have hE := isExpired_live h hl
  refine ⟨?_, ?_, ?_, ?_, fun value t => rfl⟩
  · intro hne
    refine ⟨?_, ?_, ?_, ?_, ?_, ?_⟩ <;>
      [intro vs; intro vs; skip; skip; intro a b; skip] <;>
      cases hd : v.data with
      | list l => exact absurd hd (hne l)
      | _ => simp_all [SE.lpush, SE.rpush, SE.lpop, SE.rpop, SE.lrange,
          SE.llen, hE, h, hd]
  · intro hne
    refine ⟨?_, ?_, ?_, ?_, ?_⟩ <;>
      [intro ms; intro ms; intro m; skip; skip] <;>
      cases hd : v.data with
      | set s => exact absurd hd (hne s)
      | _ => simp_all [SE.sadd, SE.srem, SE.sismember, SE.smembers,
          SE.scard, hE, h, hd]
  · intro hne
    refine ⟨?_, ?_, ?_, ?_, ?_, ?_⟩ <;>
      [intro f val; intro fs; intro f; intro f; skip; skip] <;>
      cases hd : v.data with
      | hash hm => exact absurd hd (hne hm)
      | _ => simp_all [SE.hset, SE.hdel, SE.hget, SE.hexists, SE.hgetall,
          SE.hlen, hE, h, hd]
  · intro hne
    cases hd : v.data with
    | str s => exact absurd hd (hne s)
    | _ => simp_all [SE.get, hE, h, hd]

/-- C4 witness: on the store `{"k" ↦ Sequence ["a"]}` the set-field,
member-add and scalar-get operations all fail silently leaving the store
unchanged, and the scalar `set` replaces the sequence. -/
theorem C4_witness :
    SE.hset [("k", ⟨.list ["a"], none⟩)] "k" "f" "1" 0 =
      (false, [("k", ⟨.list ["a"], none⟩)]) ∧
    SE.sadd [("k", ⟨.list ["a"], none⟩)] "k" ["m"] 0 =
      (0, [("k", ⟨.list ["a"], none⟩)]) ∧
    SE.get [("k", ⟨.list ["a"], none⟩)] "k" 0 =
      (none, [("k", ⟨.list ["a"], none⟩)]) ∧
    SE.set [("k", ⟨.list ["a"], none⟩)] "k" "v" 0 0 =
      (true, setEntry [("k", ⟨.list ["a"], none⟩)] "k"
        ⟨.str "v", ttlExpiry 0 0⟩) := by
  have hc := C4_type_mismatch_is_silent_noop [("k", ⟨.list ["a"], none⟩)]
    "k" 0 ⟨.list ["a"], none⟩ rfl rfl
  refine ⟨?_, ?_, ?_, ?_⟩
  · exact (hc.2.2.1 (by intro hm hd; cases hd)).1 "f" "1"
  · exact (hc.2.1 (by intro s hd; cases hd)).1 ["m"]
  · exact hc.2.2.2.1 (by intro s hd; cases hd)
  · exact hc.2.2.2.2 "v" 0
